import Mathlib

/-!
Verification development for the `piz` zero-copy ZIP parser.

The Rust source is shallowly embedded over byte buffers modelled as
`List Nat`, where each element stands for one `u8` (reads reduce a byte
modulo 256, matching the `u8` value range). Multi-byte fields are read
little-endian at explicit offsets, mirroring the `repr(C, packed)` layouts
in `src/raw.rs`. `usize` is modelled as a 64-bit machine word, so `u16`,
`u32` and `u64` values cast to `usize` unchanged. Fallible slicing
(`slice::get`, `slice_split_at`) becomes `Option`-returning functions.
-/

set_option maxRecDepth 8000

namespace Piz

/-- Reads one byte of the buffer; a missing index defaults to 0 and every
read is reduced into the `u8` range. The embedded code only ever reads
after the corresponding bounds check, so the default never fires there. -/
def byteAt (b : List Nat) (i : Nat) : Nat := b.getD i 0 % 256

/-- Little-endian `u16` read at offset `i`. -/
def read16 (b : List Nat) (i : Nat) : Nat :=
  byteAt b i + 256 * byteAt b (i + 1)

/-- Little-endian `u32` read at offset `i`. -/
def read32 (b : List Nat) (i : Nat) : Nat :=
  byteAt b i + 256 * byteAt b (i + 1) + 65536 * byteAt b (i + 2) +
    16777216 * byteAt b (i + 3)

/-- Little-endian `u64` read at offset `i`. -/
def read64 (b : List Nat) (i : Nat) : Nat :=
  read32 b i + 4294967296 * read32 b (i + 4)

/-- Models `u16::from_le_bytes([b0, b1])` applied to two buffer bytes, as
used by `extra::Iter::next` in `src/extra.rs`. -/
def le16 (b0 b1 : Nat) : Nat := b0 % 256 + 256 * (b1 % 256)

/-- Models `slice_split_at` from `src/lib.rs` lines 81-90: cuts a byte
region into `(taken, rest)` or fails when the region is too short. -/
def slice_split_at (s : List Nat) (index : Nat) : Option (List Nat × List Nat) :=
  if index > s.length then none
  else some (s.take index, s.drop index)

/-- Models Rust `s.get(index..)` on a byte slice. -/
def sliceFrom (s : List Nat) (index : Nat) : Option (List Nat) :=
  if index ≤ s.length then some (s.drop index) else none

/-- Models Rust `s.get(..index)` on a byte slice. -/
def sliceUpTo (s : List Nat) (index : Nat) : Option (List Nat) :=
  if index ≤ s.length then some (s.take index) else none

/-- Models `usize::saturating_sub`: `a - b`, clamped at zero. On `Nat`
this equals ordinary truncated subtraction; the explicit guard keeps the
definition in step with the source's wording. -/
def saturating_sub (a b : Nat) : Nat := if b ≤ a then a - b else 0

/-- Signature constant `CENTRAL_DIR_END_SIGNATURE` from `src/raw.rs`. -/
def CENTRAL_DIR_END_SIGNATURE : Nat := 0x06054b50

/-- The logical content of `raw::CentralDirectoryRecordEnd`
(`src/raw.rs` lines 49-58), a 22-byte packed record. -/
structure CentralDirectoryRecordEnd where
  signature : Nat
  disk_num : Nat
  central_dir_start_disk : Nat
  central_dir_records_on_this_disk : Nat
  central_dir_records_total : Nat
  central_dir_size : Nat
  central_dir_offset : Nat
  comment_length : Nat
deriving DecidableEq, Repr

/-- Models the unsafe pointer cast of a 22-byte window to
`&CentralDirectoryRecordEnd`: field-by-field little-endian reads at the
packed offsets of `src/raw.rs` lines 49-58. -/
def parseEOCD (b : List Nat) (i : Nat) : CentralDirectoryRecordEnd :=
  { signature := read32 b i
    disk_num := read16 b (i + 4)
    central_dir_start_disk := read16 b (i + 6)
    central_dir_records_on_this_disk := read16 b (i + 8)
    central_dir_records_total := read16 b (i + 10)
    central_dir_size := read32 b (i + 12)
    central_dir_offset := read32 b (i + 16)
    comment_length := read16 b (i + 20) }

/-- Size of the packed `CentralDirectoryRecordEnd`, the source's
`Self::SELF_SIZE` (`mem::size_of` of a 22-byte packed struct). -/
def SELF_SIZE : Nat := 22

/-- The backward scan core of `CentralDirectoryRecordEnd::find`
(`src/raw.rs` lines 104-113). After `rev().enumerate()`, the window with
index `i` starts at absolute offset `b.length - SELF_SIZE - i`, and `i`
equals the number of bytes between that window's end and the buffer end.
The fuel argument is the number of windows still to examine; `find` below
passes exactly the total window count, so the fuel never runs out early. -/
def findFrom (b : List Nat) : Nat → Nat → Option (CentralDirectoryRecordEnd × Nat)
  | 0, _ => none
  | fuel + 1, i =>
    if (parseEOCD b (b.length - SELF_SIZE - i)).signature = CENTRAL_DIR_END_SIGNATURE ∧
        (parseEOCD b (b.length - SELF_SIZE - i)).comment_length = i
    then some (parseEOCD b (b.length - SELF_SIZE - i), i)
    else findFrom b fuel (i + 1)

/-- Models `CentralDirectoryRecordEnd::find` (`src/raw.rs` lines 97-113).
The source first truncates to the suffix starting at
`bytes.len().saturating_sub(u16::MAX as usize)` (`Nat` subtraction is
saturating), then walks all 22-byte windows of that suffix backward from
the end, keeping the first one whose signature matches and whose declared
comment length equals the window's distance to the buffer end. -/
def CentralDirectoryRecordEnd.find (bytes : List Nat) :
    Option (CentralDirectoryRecordEnd × Nat) :=
  let start_offset := saturating_sub bytes.length 65535
  let window_len := bytes.length - start_offset
  if window_len < SELF_SIZE then none
  else findFrom bytes (window_len - SELF_SIZE + 1) 0

/-- Byte indices examined by `findFrom`: each step inspects one whole
22-byte window; the walk stops at the first accepted window. -/
def findFromReads (b : List Nat) : Nat → Nat → List Nat
  | 0, _ => []
  | fuel + 1, i =>
    List.range' (b.length - SELF_SIZE - i) SELF_SIZE ++
      (if (parseEOCD b (b.length - SELF_SIZE - i)).signature = CENTRAL_DIR_END_SIGNATURE ∧
          (parseEOCD b (b.length - SELF_SIZE - i)).comment_length = i
       then []
       else findFromReads b fuel (i + 1))

/-- Byte indices examined by `CentralDirectoryRecordEnd.find`, mirroring
its control flow step for step. -/
def findReads (bytes : List Nat) : List Nat :=
  let start_offset := saturating_sub bytes.length 65535
  let window_len := bytes.length - start_offset
  if window_len < SELF_SIZE then []
  else findFromReads bytes (window_len - SELF_SIZE + 1) 0

/-- A 22-byte directory-end record at position `p` of the buffer is
authentic when its signature matches and its end plus its declared
comment length lands exactly on the buffer end. -/
def authenticAt (b : List Nat) (p : Nat) : Prop :=
  p + SELF_SIZE ≤ b.length ∧
    (parseEOCD b p).signature = CENTRAL_DIR_END_SIGNATURE ∧
    p + SELF_SIZE + (parseEOCD b p).comment_length = b.length

instance (b : List Nat) (p : Nat) : Decidable (authenticAt b p) := by
  unfold authenticAt; infer_instance

/-- One step of `extra::Iter::next` (`src/extra.rs` lines 7-21): reads a
2-byte little-endian signal, a 2-byte little-endian length, then splits
off exactly that many payload bytes; yields nothing when fewer than 4
bytes remain or the declared length exceeds the remaining bytes. Returns
the yielded `(signal, payload)` pair together with the iterator's
remaining data. -/
def extraNext (data : List Nat) : Option ((Nat × List Nat) × List Nat) :=
  match data with
  | signature_low :: signature_high :: len_low :: len_high :: tail =>
    match slice_split_at tail (le16 len_low len_high) with
    | none => none
    | some (extra, tail2) => some ((le16 signature_low signature_high, extra), tail2)
  | _ => none

/-- Fueled loop behind `Iterator::find` over `extra::Iter`. Each yielded
record consumes at least 4 bytes, so fuel `data.length + 1` (supplied by
`extraFind`) can never run out before the iterator ends on its own. -/
def extraFindFuel (sig : Nat) : Nat → List Nat → Option (Nat × List Nat)
  | 0, _ => none
  | fuel + 1, data =>
    match extraNext data with
    | none => none
    | some (item, rest) =>
      if item.1 = sig then some item else extraFindFuel sig fuel rest

/-- Models `extra_iter.find(|(signature, _)| *signature == SIG)` from
`src/lib.rs` lines 137-138: the first record of the chain whose signal
matches, or `none` when the chain ends first. -/
def extraFind (sig : Nat) (data : List Nat) : Option (Nat × List Nat) :=
  extraFindFuel sig (data.length + 1) data

/-- Fueled collection of the whole `extra::Iter` sequence. -/
def extraListFuel : Nat → List Nat → List (Nat × List Nat)
  | 0, _ => []
  | fuel + 1, data =>
    match extraNext data with
    | none => []
    | some (item, rest) => item :: extraListFuel fuel rest

/-- Every `(signal, payload)` pair the extra-field decoder yields on a
region, in order; the sequence the spec calls the decoder's output. -/
def extraList (data : List Nat) : List (Nat × List Nat) :=
  extraListFuel (data.length + 1) data

/-- The logical content of `extra::Zip64` (`src/extra.rs` lines 29-34). -/
structure Zip64 where
  decompressed_size : Nat
  compressed_size : Nat
  local_header_record_offset : Nat
  disk_no : Nat
deriving DecidableEq, Repr

/-- The `Extra::SIGNATURE` constant of the Zip64 extension. -/
def Zip64.SIGNATURE : Nat := 0x0001

/-- Models `Zip64::parse` (`src/extra.rs` lines 39-49): requires at least
`mem::size_of::<raw::Zip64Extra>() = 28` payload bytes, then reads the
packed `Zip64Extra` fields (`src/raw.rs` lines 68-73) little-endian from
the front of the payload. -/
def Zip64.parse (bytes : List Nat) : Option Zip64 :=
  if 28 ≤ bytes.length then
    some { decompressed_size := read64 bytes 0
           compressed_size := read64 bytes 8
           local_header_record_offset := read64 bytes 16
           disk_no := read32 bytes 24 }
  else none

/-- The compression method registry (`src/lib.rs` lines 35-54). -/
inductive CompressionMethod where
  | Plain
  | Deflate
  | Deflate64
  | IbmTerseOld
  | Bzip2
  | Lzma
  | IbmCmpsc
  | IbmTerseNew
  | IbmLz77
  | Zstd
  | Mp3
  | Xz
  | Jpeg
  | WavPack
  | Ppmd1
deriving DecidableEq, Repr

/-- Models `CompressionMethod::from_u16` (`src/lib.rs` lines 57-64): only
codes 0 and 8 convert; every other code is rejected. -/
def CompressionMethod.from_u16 (x : Nat) : Option CompressionMethod :=
  match x with
  | 0 => some .Plain
  | 8 => some .Deflate
  | _ => none

/-- The logical content of `raw::CentralDirectoryFileHeader`
(`src/raw.rs` lines 26-44), a 46-byte packed record. -/
structure CentralDirectoryFileHeader where
  signature : Nat
  version_made_by : Nat
  version_min : Nat
  flags : Nat
  compression_method : Nat
  last_mod_time : Nat
  last_mod_date : Nat
  decompressed_crc : Nat
  compressed_size : Nat
  decompressed_size : Nat
  filename_len : Nat
  extra_field_len : Nat
  file_comment_len : Nat
  disk_number : Nat
  file_attr_internal : Nat
  file_attr_external : Nat
  local_file_header_offset : Nat
deriving DecidableEq, Repr

/-- Models the cast of 46 bytes at offset `i` to
`&CentralDirectoryFileHeader`: little-endian reads at the packed
offsets of `src/raw.rs` lines 26-44. -/
def parseCDFH (b : List Nat) (i : Nat) : CentralDirectoryFileHeader :=
  { signature := read32 b i
    version_made_by := read16 b (i + 4)
    version_min := read16 b (i + 6)
    flags := read16 b (i + 8)
    compression_method := read16 b (i + 10)
    last_mod_time := read16 b (i + 12)
    last_mod_date := read16 b (i + 14)
    decompressed_crc := read32 b (i + 16)
    compressed_size := read32 b (i + 20)
    decompressed_size := read32 b (i + 24)
    filename_len := read16 b (i + 28)
    extra_field_len := read16 b (i + 30)
    file_comment_len := read16 b (i + 32)
    disk_number := read16 b (i + 34)
    file_attr_internal := read16 b (i + 36)
    file_attr_external := read32 b (i + 38)
    local_file_header_offset := read32 b (i + 42) }

/-- The logical content of `raw::LocalFileHeader` (`src/raw.rs` lines
10-22), a 30-byte packed record. -/
structure LocalFileHeader where
  signature : Nat
  version_min : Nat
  flags : Nat
  compression_method : Nat
  last_mod_time : Nat
  last_mod_date : Nat
  uncompressed_crc : Nat
  compressed_size : Nat
  uncompressed_size : Nat
  filename_len : Nat
  extra_field_len : Nat
deriving DecidableEq, Repr

/-- Models the cast of 30 bytes at offset `i` to `&LocalFileHeader`:
little-endian reads at the packed offsets of `src/raw.rs` lines 10-22. -/
def parseLFH (b : List Nat) (i : Nat) : LocalFileHeader :=
  { signature := read32 b i
    version_min := read16 b (i + 4)
    flags := read16 b (i + 6)
    compression_method := read16 b (i + 8)
    last_mod_time := read16 b (i + 10)
    last_mod_date := read16 b (i + 12)
    uncompressed_crc := read32 b (i + 14)
    compressed_size := read32 b (i + 18)
    uncompressed_size := read32 b (i + 22)
    filename_len := read16 b (i + 26)
    extra_field_len := read16 b (i + 28) }

/-- Sizes of the packed header structs, the source's
`mem::size_of::<raw::CentralDirectoryFileHeader>()` and
`mem::size_of::<raw::LocalFileHeader>()`. -/
def CENTRAL_DIR_HEADER_SIZE : Nat := 46

/-- Size of the packed `raw::LocalFileHeader`. -/
def LOCAL_FILE_HEADER_SIZE : Nat := 30

/-- The yielded entry type `File` (`src/lib.rs` lines 70-79). Every byte
field aliases the input buffer in the source; here it is the
corresponding sub-list. -/
structure File where
  decompressed_crc : Nat
  decompressed_size : Nat
  compression_method : CompressionMethod
  extra_fields : List Nat
  filename : List Nat
  comment : List Nat
  bytes : List Nat
deriving DecidableEq, Repr

/-- The iterator state `NonStrictIter` (`src/lib.rs` lines 103-108). -/
structure NonStrictIter where
  data : List Nat
  offset : Nat
deriving DecidableEq, Repr

/-- The Zip64 override of `src/lib.rs` lines 136-144: the first extra
record with the Zip64 signal, if its payload parses, unconditionally
replaces the central directory's compressed size, decompressed size and
local-header offset; otherwise the 32-bit central-directory fields stand.
Returns `(compressed_size, decompressed_size, local_file_offset)`. -/
def resolveZip64 (central_dir : CentralDirectoryFileHeader)
    (extra_fields : List Nat) : Nat × Nat × Nat :=
  match (extraFind Zip64.SIGNATURE extra_fields).bind
      (fun t => Zip64.parse t.2) with
  | some zip64 =>
    (zip64.compressed_size, zip64.decompressed_size, zip64.local_header_record_offset)
  | none =>
    (central_dir.compressed_size, central_dir.decompressed_size,
      central_dir.local_file_header_offset)

/-- Models `<NonStrictIter as Iterator>::next` (`src/lib.rs` lines
113-178). Returns the yielded item together with the iterator state after
the call; the source mutates `self.offset` in place between the comment
slice and the local-file-header read, which is why bounds failures before
that point return the unchanged state `s` and the later failures return
the advanced state `t`. The header structs are parsed at their absolute
buffer offsets right after the corresponding bounds check, which reads
the same bytes as the source's pointer cast of the checked slice. -/
def nextIter (s : NonStrictIter) : Option File × NonStrictIter :=
  match sliceFrom s.data s.offset with
  | none => (none, s)
  | some bytes0 =>
    match slice_split_at bytes0 CENTRAL_DIR_HEADER_SIZE with
    | none => (none, s)
    | some (_central_dir_bytes, bytes1) =>
      let central_dir := parseCDFH s.data s.offset
      match slice_split_at bytes1 central_dir.filename_len with
      | none => (none, s)
      | some (filename, bytes2) =>
        match slice_split_at bytes2 central_dir.extra_field_len with
        | none => (none, s)
        | some (extra_fields, bytes3) =>
          match slice_split_at bytes3 central_dir.file_comment_len with
          | none => (none, s)
          | some (comment, _bytes4) =>
            let resolved := resolveZip64 central_dir extra_fields
            let compressed_size := resolved.1
            let decompressed_size := resolved.2.1
            let local_file_offset := resolved.2.2
            let total_bytes_len := CENTRAL_DIR_HEADER_SIZE +
              central_dir.filename_len + central_dir.extra_field_len +
              central_dir.file_comment_len
            let t : NonStrictIter :=
              { data := s.data, offset := s.offset + total_bytes_len }
            match (sliceFrom s.data local_file_offset).bind
                (fun slice => sliceUpTo slice LOCAL_FILE_HEADER_SIZE) with
            | none => (none, t)
            | some _local_file_header_bytes =>
              let local_file_header := parseLFH s.data local_file_offset
              let packed_file_offset := local_file_offset +
                local_file_header.filename_len + local_file_header.extra_field_len
              match (sliceFrom s.data packed_file_offset).bind
                  (fun slice => sliceUpTo slice compressed_size) with
              | none => (none, t)
              | some payload =>
                match CompressionMethod.from_u16 central_dir.compression_method with
                | none => (none, t)
                | some cm =>
                  (some { decompressed_crc := central_dir.decompressed_crc
                          decompressed_size := decompressed_size
                          compression_method := cm
                          extra_fields := extra_fields
                          filename := filename
                          comment := comment
                          bytes := payload }, t)

/-- The archive handle `Zip` (`src/lib.rs` lines 12-15). -/
structure Zip where
  central_dir_iter : NonStrictIter
  central_dir_records_total : Nat
deriving DecidableEq, Repr

/-- Models `Zip::new` (`src/lib.rs` lines 18-32): locate the directory-end
record, then seed the iterator at its claimed central-directory offset
with no bounds check on that offset. -/
def Zip.new (data : List Nat) : Option Zip :=
  match CentralDirectoryRecordEnd.find data with
  | none => none
  | some (header, _comment_len) =>
    some { central_dir_records_total := header.central_dir_records_total
           central_dir_iter := { data := data, offset := header.central_dir_offset } }

/-- Total central-directory byte length of the entry decoded at the
cursor: the `total_bytes_len` the source adds to `self.offset`
(`src/lib.rs` lines 146-152). -/
def entryLen (s : NonStrictIter) : Nat :=
  CENTRAL_DIR_HEADER_SIZE + (parseCDFH s.data s.offset).filename_len +
    (parseCDFH s.data s.offset).extra_field_len +
    (parseCDFH s.data s.offset).file_comment_len

/-- All four leading slices of a `next` step fit in the buffer: the
fixed 46-byte header at the cursor plus the declared filename, extra and
comment lengths. -/
def earlyOk (s : NonStrictIter) : Prop :=
  s.offset + entryLen s ≤ s.data.length

/-! ### Concrete test buffers -/

/-- A genuine 22-byte directory-end record declaring a 28-byte comment. -/
def g28 : List Nat := [80,75,5,6, 0,0,0,0,0,0,0,0, 0,0,0,0, 0,0,0,0, 28,0]

/-- A forged 22-byte directory-end record declaring an empty comment. -/
def forged0 : List Nat := [80,75,5,6, 0,0,0,0,0,0,0,0, 0,0,0,0, 0,0,0,0, 0,0]

/-- Adversarial tail from the spec's scenario: genuine record whose
28-byte comment consists of 6 free bytes followed by a forged record that
ends exactly at the buffer end. -/
def cex2 : List Nat := g28 ++ [1,2,3,4,5,6] ++ forged0

/-- A genuine 22-byte directory-end record declaring the maximal
65535-byte comment. -/
def genuineMax : List Nat := [80,75,5,6, 0,0,0,0,0,0,0,0, 0,0,0,0, 0,0,0,0, 255,255]

/-- A 65557-byte buffer holding one authentic directory-end record at
position 0 followed by its 65535 zero comment bytes. -/
def cex3 : List Nat := genuineMax ++ List.replicate 65535 0

/-- A 22-byte buffer that is a single directory-end record claiming the
out-of-range central-directory offset 9999 and 3 total records. -/
def w10 : List Nat := [80,75,5,6, 0,0, 0,0, 0,0, 3,0, 0,0,0,0, 15,39,0,0, 0,0]

/-- A 30-byte local file header: method 0, compressed and uncompressed
size 2, filename length 1, extra length 0. -/
def lfh0 : List Nat := [80,75,3,4, 20,0, 0,0, 0,0, 0,0, 0,0, 0,0,0,0, 2,0,0,0, 2,0,0,0, 1,0, 0,0]

/-- A 46-byte central directory header matching `lfh0`: method 0, sizes
2, filename length 1, no extra, no comment, local header offset 0. -/
def cdA1 : List Nat := [80,75,1,2, 20,0, 20,0, 0,0, 0,0, 0,0, 0,0, 0,0,0,0, 2,0,0,0, 2,0,0,0, 1,0, 0,0, 0,0, 0,0, 0,0, 0,0,0,0, 0,0,0,0]

/-- An 80-byte single-entry archive: local header, filename `a`, the
2-byte payload `[170, 187]` at offset 31, then the central directory
entry starting at offset 33. -/
def A1 : List Nat := lfh0 ++ [97] ++ [170,187] ++ cdA1 ++ [97]

/-- A 28-byte Zip64 extension payload: decompressed size 100, compressed
size 7, local header offset 0, disk 0. -/
def pl0 : List Nat := [100,0,0,0,0,0,0,0, 7,0,0,0,0,0,0,0, 0,0,0,0,0,0,0,0, 0,0,0,0]

/-- A 36-byte extra-field block: first a signal-1 record with empty
payload, then a signal-1 record carrying the 28-byte Zip64 payload. -/
def exBlock : List Nat := [1,0,0,0] ++ [1,0,28,0] ++ pl0

/-- Like `cdA1` but declaring the 36-byte extra-field block. -/
def cdA2 : List Nat := [80,75,1,2, 20,0, 20,0, 0,0, 0,0, 0,0, 0,0, 0,0,0,0, 2,0,0,0, 2,0,0,0, 1,0, 36,0, 0,0, 0,0, 0,0, 0,0,0,0, 0,0,0,0]

/-- A 116-byte single-entry archive whose central directory entry carries
the extra-field block `exBlock`. -/
def A2 : List Nat := lfh0 ++ [97] ++ [170,187] ++ cdA2 ++ [97] ++ exBlock

/-- A 32-byte extra-field block holding exactly one signal-1 record with
the 28-byte Zip64 payload `pl0`. -/
def ef0 : List Nat := [1,0,28,0] ++ pl0

/-- A 46-byte buffer that is a single central directory header with all
variable lengths 0, local header offset 0, compressed size 0 and the
unrecognized compression code 5. -/
def cd46 : List Nat := [80,75,1,2, 0,0, 0,0, 0,0, 5,0, 0,0, 0,0, 0,0,0,0, 0,0,0,0, 0,0,0,0, 0,0, 0,0, 0,0, 0,0, 0,0, 0,0,0,0, 0,0,0,0]

/-- An extra-field region holding one record: signal 1, length 4,
payload `[9, 9, 9, 9]`. -/
def ex7 : List Nat := [1,0,4,0,9,9,9,9]

/-- The entry the iterator yields from archive `A2` at cursor 33. -/
def f0 : File :=
  { decompressed_crc := 0
    decompressed_size := 2
    compression_method := .Plain
    extra_fields := exBlock
    filename := [97]
    comment := []
    bytes := [75, 3] }

/-! ### Helper lemmas about the slicing primitives -/

theorem sliceFrom_eq_none_iff (s : List Nat) (i : Nat) :
    sliceFrom s i = none ↔ s.length < i := by
  unfold sliceFrom
  split
  · simp; omega
  · simp; omega

theorem sliceFrom_eq_some_iff (s : List Nat) (i : Nat) (r : List Nat) :
    sliceFrom s i = some r ↔ i ≤ s.length ∧ r = s.drop i := by
  unfold sliceFrom
  split
  · simp only [Option.some.injEq]
    constructor
    · intro h; exact ⟨by omega, h.symm⟩
    · intro h; exact h.2.symm
  · simp; omega

theorem slice_split_at_eq_none_iff (s : List Nat) (i : Nat) :
    slice_split_at s i = none ↔ s.length < i := by
  unfold slice_split_at
  split
  · simp; omega
  · simp; omega

theorem slice_split_at_eq_some_iff (s : List Nat) (i : Nat) (p : List Nat × List Nat) :
    slice_split_at s i = some p ↔ i ≤ s.length ∧ p = (s.take i, s.drop i) := by
  unfold slice_split_at
  split
  · simp; omega
  · simp only [Option.some.injEq]
    constructor
    · intro h; exact ⟨by omega, h.symm⟩
    · intro h; exact h.2.symm

theorem sliceUpTo_eq_some_iff (s : List Nat) (i : Nat) (r : List Nat) :
    sliceUpTo s i = some r ↔ i ≤ s.length ∧ r = s.take i := by
  unfold sliceUpTo
  split
  · simp only [Option.some.injEq]
    constructor
    · intro h; exact ⟨by omega, h.symm⟩
    · intro h; exact h.2.symm
  · simp; omega

/-! ### Cursor behaviour of one `next` step -/

/-- Case analysis of one `next` step: either one of the four leading
slices fails its bounds check, in which case the call returns no entry
and the state is untouched, or all four fit, in which case the cursor is
advanced past the whole central-directory entry no matter how the rest of
the step goes. -/
theorem nextIter_cursor (s : NonStrictIter) :
    (¬ earlyOk s ∧ nextIter s = (none, s)) ∨
    (earlyOk s ∧ (nextIter s).2 = { data := s.data, offset := s.offset + entryLen s }) := by
  rcases hnext : nextIter s with ⟨v, t⟩
  simp only [nextIter] at hnext
  split at hnext
  · rename_i heq0
    rw [sliceFrom_eq_none_iff] at heq0
    injection hnext with hv ht
    subst hv; subst ht
    refine Or.inl ⟨?_, rfl⟩
    unfold earlyOk
    omega
  · rename_i bytes0 heq0
    rw [sliceFrom_eq_some_iff] at heq0
    obtain ⟨h0, hb0⟩ := heq0
    subst hb0
    split at hnext
    · rename_i heq1
      rw [slice_split_at_eq_none_iff] at heq1
      simp only [List.length_drop] at heq1
      injection hnext with hv ht
      subst hv; subst ht
      refine Or.inl ⟨?_, rfl⟩
      unfold earlyOk entryLen
      omega
    · rename_i cdb bytes1 heq1
      rw [slice_split_at_eq_some_iff] at heq1
      obtain ⟨h1, hp1⟩ := heq1
      injection hp1 with hcdb hb1
      subst hb1
      simp only [List.length_drop] at h1
      split at hnext
      · rename_i heq2
        rw [slice_split_at_eq_none_iff] at heq2
        simp only [List.length_drop] at heq2
        injection hnext with hv ht
        subst hv; subst ht
        refine Or.inl ⟨?_, rfl⟩
        unfold earlyOk entryLen
        omega
      · rename_i filename bytes2 heq2
        rw [slice_split_at_eq_some_iff] at heq2
        obtain ⟨h2, hp2⟩ := heq2
        injection hp2 with hfn hb2
        subst hb2
        simp only [List.length_drop] at h2
        split at hnext
        · rename_i heq3
          rw [slice_split_at_eq_none_iff] at heq3
          simp only [List.length_drop] at heq3
          injection hnext with hv ht
          subst hv; subst ht
          refine Or.inl ⟨?_, rfl⟩
          unfold earlyOk entryLen
          omega
        · rename_i extra_fields bytes3 heq3
          rw [slice_split_at_eq_some_iff] at heq3
          obtain ⟨h3, hp3⟩ := heq3
          injection hp3 with hef hb3
          subst hb3
          simp only [List.length_drop] at h3
          split at hnext
          · rename_i heq4
            rw [slice_split_at_eq_none_iff] at heq4
            simp only [List.length_drop] at heq4
            injection hnext with hv ht
            subst hv; subst ht
            refine Or.inl ⟨?_, rfl⟩
            unfold earlyOk entryLen
            omega
          · rename_i comment bytes4 heq4
            rw [slice_split_at_eq_some_iff] at heq4
            obtain ⟨h4, hp4⟩ := heq4
            simp only [List.length_drop] at h4
            have hok : earlyOk s := by
              unfold earlyOk entryLen
              omega
            split at hnext
            · injection hnext with hv ht
              subst ht
              exact Or.inr ⟨hok, rfl⟩
            · split at hnext
              · injection hnext with hv ht
                subst ht
                exact Or.inr ⟨hok, rfl⟩
              · split at hnext
                · injection hnext with hv ht
                  subst ht
                  exact Or.inr ⟨hok, rfl⟩
                · injection hnext with hv ht
                  subst ht
                  exact Or.inr ⟨hok, rfl⟩

/-! ### Arithmetic and scan lemmas for the locator -/

theorem saturating_sub_eq (a b : Nat) : saturating_sub a b = a - b := by
  unfold saturating_sub
  split
  · rfl
  · omega

/-- Soundness of the backward window scan: any hit of `findFrom` was
produced by the acceptance test of some window, so it carries the
directory-end signature, its declared comment length is the reported one,
and the window together with that comment length ends exactly at the
buffer end. -/
theorem findFrom_some (b : List Nat) (fuel : Nat) :
    ∀ i r c, fuel + i + 21 ≤ b.length →
      findFrom b fuel i = some (r, c) →
      r.signature = CENTRAL_DIR_END_SIGNATURE ∧ r.comment_length = c ∧
      SELF_SIZE + c ≤ b.length ∧ r = parseEOCD b (b.length - SELF_SIZE - c) ∧
      (b.length - SELF_SIZE - c) + SELF_SIZE + c = b.length := by
  have hS : SELF_SIZE = 22 := rfl
  induction fuel with
  | zero =>
    intro i r c _ h
    exact Option.noConfusion h
  | succ fuel ih =>
    intro i r c hb h
    rw [findFrom] at h
    split at h
    · rename_i hcond
      injection h with h1
      injection h1 with hr hc
      subst hc
      refine ⟨by rw [← hr]; exact hcond.1, by rw [← hr]; exact hcond.2, by omega,
        hr.symm, by omega⟩
    · exact ih (i + 1) r c (by omega) h

/-- Emptiness of the backward window scan: when no examined window has a
matching signature, the scan reports nothing. -/
theorem findFrom_none (b : List Nat) (fuel : Nat) :
    ∀ i, (∀ j, i ≤ j → j < i + fuel →
        (parseEOCD b (b.length - SELF_SIZE - j)).signature ≠ CENTRAL_DIR_END_SIGNATURE) →
      findFrom b fuel i = none := by
  induction fuel with
  | zero => intro i _; rfl
  | succ fuel ih =>
    intro i h
    rw [findFrom]
    rw [if_neg]
    · exact ih (i + 1) (fun j h1 h2 => h j (by omega) (by omega))
    · intro hc
      exact h i (by omega) (by omega) hc.1

theorem getD_replicate_zero (n j : Nat) : (List.replicate n (0 : Nat)).getD j 0 = 0 := by
  induction n generalizing j with
  | zero => rfl
  | succ n ih =>
    cases j with
    | zero => rfl
    | succ j => exact ih j

theorem byteAt_append_replicate_zero (g : List Nat) (n j : Nat) (h : g.length ≤ j) :
    byteAt (g ++ List.replicate n 0) j = 0 := by
  induction g generalizing j with
  | nil =>
    show (List.replicate n (0 : Nat)).getD j 0 % 256 = 0
    rw [getD_replicate_zero]
  | cons a g ih =>
    cases j with
    | zero => simp [List.length_cons] at h
    | succ j =>
      have h' : g.length ≤ j := by
        simp only [List.length_cons] at h
        omega
      exact ih j h'

theorem genuineMax_length : genuineMax.length = 22 := rfl

theorem cex3_length : cex3.length = 65557 := by
  simp only [cex3]
  rw [List.length_append, List.length_replicate, genuineMax_length]

/-- Every 22-byte window of `cex3` that starts inside the comment region
reads an all-zero signature. -/
theorem cex3_signature_zero (p : Nat) (hp : 22 ≤ p) :
    (parseEOCD cex3 p).signature = 0 := by
  show read32 cex3 p = 0
  have hg : genuineMax.length = 22 := genuineMax_length
  have e0 : byteAt (genuineMax ++ List.replicate 65535 0) p = 0 :=
    byteAt_append_replicate_zero _ _ _ (by omega)
  have e1 : byteAt (genuineMax ++ List.replicate 65535 0) (p + 1) = 0 :=
    byteAt_append_replicate_zero _ _ _ (by omega)
  have e2 : byteAt (genuineMax ++ List.replicate 65535 0) (p + 2) = 0 :=
    byteAt_append_replicate_zero _ _ _ (by omega)
  have e3 : byteAt (genuineMax ++ List.replicate 65535 0) (p + 3) = 0 :=
    byteAt_append_replicate_zero _ _ _ (by omega)
  simp only [cex3, read32]
  rw [e0, e1, e2, e3]

/-! ### Claim theorems -/

/-- C8: the iterator cursor never advances past the buffer length: from
any state whose offset is at most the buffer length, a call to `next`
leaves the offset at most the buffer length, whether or not it yields an
entry. -/
theorem C8_cursor_bound (s : NonStrictIter) (h : s.offset ≤ s.data.length) :
    (nextIter s).2.offset ≤ s.data.length := by
  rcases nextIter_cursor s with ⟨_, heq⟩ | ⟨hok, heq⟩
  · rw [heq]
    exact h
  · rw [heq]
    exact hok

/-- C8 witness: the empty buffer at offset 0. -/
theorem C8_cursor_bound_witness :
    (nextIter { data := [], offset := 0 }).2.offset ≤ ([] : List Nat).length :=
  C8_cursor_bound { data := [], offset := 0 } (by decide)

/-- C9: when `next` yields no entry, either one of the four leading
bounds checks failed, leaving the whole state unchanged, or those slices
all succeeded and the cursor has been advanced past the entire
central-directory entry, so a subsequent call starts at the next entry. -/
theorem C9_cursor_on_failure (s : NonStrictIter) (_h : (nextIter s).1 = none) :
    (¬ earlyOk s ∧ (nextIter s).2 = s) ∨
    (earlyOk s ∧ (nextIter s).2.offset = s.offset + entryLen s) := by
  rcases nextIter_cursor s with ⟨hno, heq⟩ | ⟨hok, heq⟩
  · exact Or.inl ⟨hno, by rw [heq]⟩
  · exact Or.inr ⟨hok, by rw [heq]⟩

/-- C9 witness: a buffer that is exactly one 46-byte central directory
header with the unrecognized compression code 5 fails late, after the
cursor has moved past the entry. -/
theorem C9_cursor_on_failure_witness :
    (¬ earlyOk { data := cd46, offset := 0 } ∧
      (nextIter { data := cd46, offset := 0 }).2 = { data := cd46, offset := 0 }) ∨
    (earlyOk { data := cd46, offset := 0 } ∧
      (nextIter { data := cd46, offset := 0 }).2.offset =
        0 + entryLen { data := cd46, offset := 0 }) :=
  C9_cursor_on_failure { data := cd46, offset := 0 } (by decide)

/-- C10: whenever the locator finds a directory-end record, `Zip::new`
returns a handle seeded at the record's claimed central-directory offset
without bounds-checking it; when that offset exceeds the buffer length
the first `next` call ends the sequence with no entry and leaves the
state unchanged. -/
theorem C10_new_unchecked_offset (data : List Nat)
    (hd : CentralDirectoryRecordEnd) (c : Nat)
    (hfind : CentralDirectoryRecordEnd.find data = some (hd, c))
    (hbig : data.length < hd.central_dir_offset) :
    Zip.new data = some
      { central_dir_iter := { data := data, offset := hd.central_dir_offset }
        central_dir_records_total := hd.central_dir_records_total } ∧
    nextIter { data := data, offset := hd.central_dir_offset } =
      (none, { data := data, offset := hd.central_dir_offset }) := by
  constructor
  · simp only [Zip.new, hfind]
  · have hnone : sliceFrom data hd.central_dir_offset = none := by
      rw [sliceFrom_eq_none_iff]
      exact hbig
    simp only [nextIter, hnone]

/-- C10 witness: the 22-byte record `w10` claims central-directory
offset 9999, far beyond its own 22 bytes. -/
theorem C10_new_unchecked_offset_witness :
    Zip.new w10 = some
      { central_dir_iter := { data := w10, offset := (parseEOCD w10 0).central_dir_offset }
        central_dir_records_total := (parseEOCD w10 0).central_dir_records_total } ∧
    nextIter { data := w10, offset := (parseEOCD w10 0).central_dir_offset } =
      (none, { data := w10, offset := (parseEOCD w10 0).central_dir_offset }) :=
  C10_new_unchecked_offset w10 (parseEOCD w10 0) 0 (by decide) (by decide)

/-- C1: evaluation at a concrete archive showing the payload bug. In
`A1` the entry's local header sits at offset 0 with filename length 1 and
extra length 0, and the declared compressed size is 2, so the claimed
payload start is 0 + 30 + 1 + 0 = 31. The iterator instead slices the
payload from offset 0 + 1 + 0 = 1, omitting the 30-byte local file
header size, and the two byte views differ. -/
theorem C1_payload_start_bug :
    (parseLFH A1 0).filename_len = 1 ∧ (parseLFH A1 0).extra_field_len = 0 ∧
    (parseCDFH A1 33).local_file_header_offset = 0 ∧
    (parseCDFH A1 33).compressed_size = 2 ∧
    ((nextIter { data := A1, offset := 33 }).1.map File.bytes) =
      some ((A1.drop (0 + (parseLFH A1 0).filename_len +
        (parseLFH A1 0).extra_field_len)).take 2) ∧
    (A1.drop (0 + (parseLFH A1 0).filename_len + (parseLFH A1 0).extra_field_len)).take 2 ≠
      (A1.drop (0 + LOCAL_FILE_HEADER_SIZE + (parseLFH A1 0).filename_len +
        (parseLFH A1 0).extra_field_len)).take 2 := by
  decide

/-- C2: evaluation at the spec's adversarial tail. The record at
position 0 of `cex2` is authentic with comment length 28, yet the locator
returns the record parsed at position 28 — the forgery embedded in the
comment, with comment length 0 — and that record differs from the genuine
one. -/
theorem C2_locator_forgery_bug :
    authenticAt cex2 0 ∧ (parseEOCD cex2 0).comment_length = 28 ∧
    CentralDirectoryRecordEnd.find cex2 = some (parseEOCD cex2 28, 0) ∧
    (parseEOCD cex2 28).comment_length = 0 ∧
    parseEOCD cex2 28 ≠ parseEOCD cex2 0 := by
  decide

/-- C3: the scan window is 22 bytes too short. `cex3` carries an
authentic directory-end record at position 0 whose comment length is the
format maximum 65535, but because the locator truncates its search to the
last 65535 bytes — not the last 22 + 65535 bytes — the record lies
outside every examined window and the locator reports nothing. -/
theorem C3_scan_window_bug :
    authenticAt cex3 0 ∧ (parseEOCD cex3 0).comment_length = 65535 ∧
    CentralDirectoryRecordEnd.find cex3 = none := by
  have hlen : cex3.length = 65557 := cex3_length
  have hS : SELF_SIZE = 22 := rfl
  have hcl : (parseEOCD cex3 0).comment_length = 65535 := by decide
  refine ⟨⟨by omega, by decide, by rw [hcl, hlen, hS]⟩, hcl, ?_⟩
  simp only [CentralDirectoryRecordEnd.find]
  rw [hlen, saturating_sub_eq]
  rw [if_neg (by norm_num [SELF_SIZE])]
  apply findFrom_none
  intro j h0 hj
  have hp : 22 ≤ cex3.length - SELF_SIZE - j := by
    rw [hlen, hS]
    omega
  rw [cex3_signature_zero _ hp]
  decide

/-- C4: soundness of the locator. Whatever record and comment length it
returns, the record's window carried the directory-end signature, its
declared comment length equals the returned one, and the window's end
plus that comment length is exactly the buffer end. -/
theorem C4_find_sound (b : List Nat) (r : CentralDirectoryRecordEnd) (c : Nat)
    (h : CentralDirectoryRecordEnd.find b = some (r, c)) :
    r.signature = CENTRAL_DIR_END_SIGNATURE ∧ r.comment_length = c ∧
    SELF_SIZE + c ≤ b.length ∧ r = parseEOCD b (b.length - SELF_SIZE - c) ∧
    (b.length - SELF_SIZE - c) + SELF_SIZE + c = b.length := by
  have hS : SELF_SIZE = 22 := rfl
  simp only [CentralDirectoryRecordEnd.find] at h
  split at h
  · exact Option.noConfusion h
  · rename_i hcond
    rw [saturating_sub_eq] at hcond h
    refine findFrom_some b _ 0 r c ?_ h
    omega

/-- C4 witness: a buffer that is one bare 22-byte record with an empty
comment. -/
theorem C4_find_sound_witness :
    (parseEOCD forged0 0).signature = CENTRAL_DIR_END_SIGNATURE ∧
    (parseEOCD forged0 0).comment_length = 0 ∧
    SELF_SIZE + 0 ≤ forged0.length ∧
    parseEOCD forged0 0 = parseEOCD forged0 (forged0.length - SELF_SIZE - 0) ∧
    (forged0.length - SELF_SIZE - 0) + SELF_SIZE + 0 = forged0.length :=
  C4_find_sound forged0 (parseEOCD forged0 0) 0 (by decide)

/-- C5: a buffer shorter than the 22-byte record is rejected before any
window is formed: the locator returns nothing, examines no byte index at
all, and in particular every index it examines lies inside the buffer. -/
theorem C5_find_short_buffer (b : List Nat) (h : b.length < SELF_SIZE) :
    CentralDirectoryRecordEnd.find b = none ∧ findReads b = [] ∧
    ∀ j ∈ findReads b, j < b.length := by
  have hS : SELF_SIZE = 22 := rfl
  have hcond : b.length - saturating_sub b.length 65535 < SELF_SIZE := by
    rw [saturating_sub_eq]
    omega
  have h1 : CentralDirectoryRecordEnd.find b = none := by
    simp only [CentralDirectoryRecordEnd.find]
    rw [if_pos hcond]
  have h2 : findReads b = [] := by
    simp only [findReads]
    rw [if_pos hcond]
  refine ⟨h1, h2, ?_⟩
  rw [h2]
  intro j hj
  exact absurd hj (List.not_mem_nil j)

/-- C5 witness: a 3-byte buffer. -/
theorem C5_find_short_buffer_witness :
    CentralDirectoryRecordEnd.find [1, 2, 3] = none ∧ findReads [1, 2, 3] = [] ∧
    ∀ j ∈ findReads [1, 2, 3], j < ([1, 2, 3] : List Nat).length :=
  C5_find_short_buffer [1, 2, 3] (by decide)

/-- C6 counterexample: the entry of archive `A2` is yielded and its
extra-field block does contain a signal-1 record with 28 payload bytes
declaring decompressed size 100 — every qualifying record in the block
does — yet the yielded decompressed size is the central directory's 2,
because the decoder stops at the block's first signal-1 record, whose
payload is empty. -/
theorem C6_zip64_first_match_cex :
    ((nextIter { data := A2, offset := 33 }).1.map
        (fun f => (f.decompressed_size, f.extra_fields))) = some (2, exBlock) ∧
    (∃ it ∈ extraList exBlock, it.1 = Zip64.SIGNATURE ∧ 28 ≤ it.2.length) ∧
    (∀ it ∈ extraList exBlock, it.1 = Zip64.SIGNATURE → 28 ≤ it.2.length →
      (Zip64.parse it.2).map Zip64.decompressed_size = some 100) ∧
    (2 : Nat) ≠ 100 := by
  decide

/-- C6 amended: the override keys on the first signal-1 record of the
chain. When the record the decoder's search returns has at least 28
payload bytes, the resolved compressed size, decompressed size and
local-header offset are its three 64-bit fields, whatever the 32-bit
central-directory fields hold — sentinel or not; and every yielded
entry's payload length and decompressed size are exactly the resolved
values. -/
theorem C6_zip64_override :
    (∀ (cd : CentralDirectoryFileHeader) (ef : List Nat) (p : Nat × List Nat),
      extraFind Zip64.SIGNATURE ef = some p → 28 ≤ p.2.length →
      resolveZip64 cd ef = (read64 p.2 8, read64 p.2 0, read64 p.2 16)) ∧
    (∀ (s : NonStrictIter) (f : File) (t : NonStrictIter),
      nextIter s = (some f, t) →
      f.bytes.length = (resolveZip64 (parseCDFH s.data s.offset) f.extra_fields).1 ∧
      f.decompressed_size = (resolveZip64 (parseCDFH s.data s.offset) f.extra_fields).2.1) := by
  constructor
  · intro cd ef p hf hlen
    unfold resolveZip64
    rw [hf]
    simp only [Option.some_bind]
    simp only [Zip64.parse]
    rw [if_pos hlen]
  · intro s f t h
    simp only [nextIter] at h
    split at h
    · injection h with h1 _
      exact Option.noConfusion h1
    · rename_i bytes0 heq0
      rw [sliceFrom_eq_some_iff] at heq0
      obtain ⟨h0, hb0⟩ := heq0
      subst hb0
      split at h
      · injection h with h1 _
        exact Option.noConfusion h1
      · split at h
        · injection h with h1 _
          exact Option.noConfusion h1
        · split at h
          · injection h with h1 _
            exact Option.noConfusion h1
          · rename_i efv bytes3 heq3
            split at h
            · injection h with h1 _
              exact Option.noConfusion h1
            · split at h
              · injection h with h1 _
                exact Option.noConfusion h1
              · split at h
                · injection h with h1 _
                  exact Option.noConfusion h1
                · rename_i payload hpay
                  split at h
                  · injection h with h1 _
                    exact Option.noConfusion h1
                  · injection h with h1 _
                    injection h1 with hf
                    subst hf
                    rw [Option.bind_eq_some] at hpay
                    obtain ⟨slice, _hsl, hup⟩ := hpay
                    rw [sliceUpTo_eq_some_iff] at hup
                    obtain ⟨hle, hpayload⟩ := hup
                    subst hpayload
                    refine ⟨?_, rfl⟩
                    show (slice.take (resolveZip64 (parseCDFH s.data s.offset) efv).1).length =
                      (resolveZip64 (parseCDFH s.data s.offset) efv).1
                    rw [List.length_take]
                    omega

/-- C6 witness: the resolution and the yield tie-in, each at a concrete
input. The block `ef0` has exactly one signal-1 record, carrying `pl0`,
and the archive `A2` yields the entry `f0`. -/
theorem C6_zip64_override_witness :
    resolveZip64 (parseCDFH [] 0) ef0 = (read64 pl0 8, read64 pl0 0, read64 pl0 16) ∧
    (f0.bytes.length = (resolveZip64 (parseCDFH A2 33) f0.extra_fields).1 ∧
      f0.decompressed_size = (resolveZip64 (parseCDFH A2 33) f0.extra_fields).2.1) :=
  ⟨C6_zip64_override.1 (parseCDFH [] 0) ef0 (1, pl0) (by decide) (by decide),
    C6_zip64_override.2 { data := A2, offset := 33 } f0 { data := A2, offset := 116 }
      (by decide)⟩

/-- C7: one step of the extra-field decoder, characterized completely.
The step ends the sequence when fewer than 4 bytes remain or the declared
length exceeds the remaining bytes; otherwise it yields the pair read as
a 2-byte little-endian signal, 2-byte little-endian length, and exactly
that many payload bytes, consuming at least 4 bytes of the region — so
the remaining region shrinks and the iteration terminates. -/
theorem C7_extra_decoder_step (data : List Nat) :
    (data.length < 4 → extraNext data = none) ∧
    (4 ≤ data.length → data.length < 4 + read16 data 2 → extraNext data = none) ∧
    (∀ item rest, extraNext data = some (item, rest) →
      item.1 = read16 data 0 ∧
      item.2 = (data.drop 4).take (read16 data 2) ∧
      rest = (data.drop 4).drop (read16 data 2) ∧
      read16 data 2 + 4 ≤ data.length ∧
      rest.length + 4 + read16 data 2 = data.length) := by
  rcases data with _ | ⟨s0, _ | ⟨s1, _ | ⟨l0, _ | ⟨l1, tail⟩⟩⟩⟩
  · exact ⟨fun _ => rfl, fun _ _ => rfl,
      fun item rest h => Option.noConfusion h⟩
  · exact ⟨fun _ => rfl, fun _ _ => rfl,
      fun item rest h => Option.noConfusion h⟩
  · exact ⟨fun _ => rfl, fun _ _ => rfl,
      fun item rest h => Option.noConfusion h⟩
  · exact ⟨fun _ => rfl, fun _ _ => rfl,
      fun item rest h => Option.noConfusion h⟩
  · have h0 : read16 (s0 :: s1 :: l0 :: l1 :: tail) 0 = le16 s0 s1 := rfl
    have h2 : read16 (s0 :: s1 :: l0 :: l1 :: tail) 2 = le16 l0 l1 := rfl
    refine ⟨?_, ?_, ?_⟩
    · intro h
      simp only [List.length_cons] at h
      omega
    · intro _ hlen
      rw [h2] at hlen
      simp only [List.length_cons] at hlen
      have hsplit : slice_split_at tail (le16 l0 l1) = none := by
        rw [slice_split_at_eq_none_iff]
        omega
      simp only [extraNext, hsplit]
    · intro item rest h
      simp only [extraNext] at h
      split at h
      · exact Option.noConfusion h
      · rename_i extra tail2 heq
        rw [slice_split_at_eq_some_iff] at heq
        obtain ⟨hle, hpair⟩ := heq
        injection hpair with hextra htail2
        injection h with h1
        injection h1 with hitem hrest
        subst hitem
        subst hrest
        subst hextra
        subst htail2
        simp only [List.length_cons] at hle ⊢
        refine ⟨h0.symm, ?_, ?_, ?_, ?_⟩
        · rw [h2]
          rfl
        · rw [h2]
          rfl
        · rw [h2]
          omega
        · rw [h2, List.length_drop]
          omega

/-- C7 witness: the region `ex7` yields the record with signal 1 and the
4-byte payload. -/
theorem C7_extra_decoder_step_witness :
    ((1 : Nat), ([9, 9, 9, 9] : List Nat)).1 = read16 ex7 0 ∧
    ((1 : Nat), ([9, 9, 9, 9] : List Nat)).2 = (ex7.drop 4).take (read16 ex7 2) ∧
    ([] : List Nat) = (ex7.drop 4).drop (read16 ex7 2) ∧
    read16 ex7 2 + 4 ≤ ex7.length ∧
    ([] : List Nat).length + 4 + read16 ex7 2 = ex7.length :=
  (C7_extra_decoder_step ex7).2.2 (1, [9, 9, 9, 9]) [] (by decide)

end Piz
